import Mathlib

/-!
Shallow embedding of the `sakeonoapp` repository: three CSV-reshaping
scripts whose one real component is an account-to-depletion
reconciliation join (`add_account_ids.py`), together with a legacy join
(`merge_account_ids.py`) and the unpivot step (`process_vip_export.py`).

Rows of the input tables are modelled as typed records; a pandas cell
holding the `cases` quantity is modelled by what Python's `float(...)`
yields on it: `some q` when it parses to a non-NaN number `q`, `none`
when parsing raises `ValueError`/`TypeError` or produces NaN (both are
routed to the same skip branch in the source).
-/

namespace SakeOno

/-- Entity record: one row of `accounts_with_supabase_ids.csv`
(`std_account_name` display name, `id` Supabase identifier). -/
structure EntityRecord where
  std_account_name : String
  id : String
deriving DecidableEq, Repr

/-- Transaction record: one row of `depletions_to_import.csv`.
`cases` is the result of `float(row['cases'])`: `some q` for a non-NaN
numeric value, `none` for a parse failure or NaN. -/
structure TransactionRecord where
  std_account_name_for_lookup : String
  order_date : String
  cases : Option ℚ
  sku : String
deriving DecidableEq, Repr

/-- Reconciled record: one element of `matched_depletions_data`
(add_account_ids.py, lines 92-97). -/
structure ReconciledRecord where
  account_id : String
  order_date : String
  cases : ℚ
  sku : String
deriving DecidableEq, Repr

/-- Result triple of the reconciliation loop (add_account_ids.py, steps
5-6): the matched rows in input order, the set of original unmatched
names, and the invalid-cases skip counter. -/
structure ReconcileResult where
  matched : List ReconciledRecord
  unmatched_names : Finset String
  skipped_invalid_count : Nat
deriving DecidableEq

/-- Drop whitespace from both ends of a character list (structural
rendering of `str.strip()`). -/
def trimChars (l : List Char) : List Char :=
  ((l.dropWhile Char.isWhitespace).reverse.dropWhile Char.isWhitespace).reverse

/-- Name normalization used for matching: `.astype(str).str.lower().str.strip()`
(add_account_ids.py, lines 55-56): lowercase every character, then trim
whitespace from both ends. -/
def normalize (s : String) : String :=
  String.mk (trimChars (s.data.map Char.toLower))

/-- Lookup in a Python dict built as `dict(zip(keys, values))`: the value
of the LAST pair carrying the key (later pairs overwrite earlier ones). -/
def dictGet (pairs : List (String × String)) (key : String) : Option String :=
  (pairs.reverse.find? (fun p => p.1 == key)).map (fun p => p.2)

/-- The `(match_col_accounts, id)` pairs zipped into `account_id_map`
(add_account_ids.py, line 62). -/
def account_id_map_pairs (accounts : List EntityRecord) : List (String × String) :=
  accounts.map (fun a => (normalize a.std_account_name, a.id))

/-- The three ways the loop body (add_account_ids.py, lines 71-97) can
dispose of one depletion row. -/
inductive RowOutcome where
  | matchedRow (r : ReconciledRecord)
  | unmatchedRow (name : String)
  | invalidRow
deriving DecidableEq, Repr

/-- One iteration of the loop at add_account_ids.py lines 71-97, as a
per-row decision: no id in the map → unmatched (store the ORIGINAL name);
id found but `cases` unparseable/NaN or `≤ 0` → invalid; otherwise emit
the reconciled record with the id from the map, the row's `order_date`
and `sku`, and the parsed `cases`. -/
def rowOutcome (accounts : List EntityRecord) (row : TransactionRecord) : RowOutcome :=
  match dictGet (account_id_map_pairs accounts) (normalize row.std_account_name_for_lookup) with
  | none => RowOutcome.unmatchedRow row.std_account_name_for_lookup
  | some accountId =>
    match row.cases with
    | none => RowOutcome.invalidRow
    | some q =>
      if q ≤ 0 then RowOutcome.invalidRow
      else RowOutcome.matchedRow ⟨accountId, row.order_date, q, row.sku⟩

/-- Effect of one loop iteration on the three accumulators
(`matched_depletions_data`, `unmatched_account_names`,
`skipped_due_to_invalid_cases`). -/
def processRow (accounts : List EntityRecord) (acc : ReconcileResult)
    (row : TransactionRecord) : ReconcileResult :=
  match rowOutcome accounts row with
  | RowOutcome.matchedRow r => { acc with matched := acc.matched ++ [r] }
  | RowOutcome.unmatchedRow n => { acc with unmatched_names := insert n acc.unmatched_names }
  | RowOutcome.invalidRow =>
      { acc with skipped_invalid_count := acc.skipped_invalid_count + 1 }

/-- The reconciliation join of add_account_ids.py (steps 3-5): fold the
loop body over the depletion rows in input order, starting from empty
accumulators. -/
def merge_true_supabase_ids_with_depletions (accounts : List EntityRecord)
    (depletions : List TransactionRecord) : ReconcileResult :=
  depletions.foldl (processRow accounts) ⟨[], ∅, 0⟩

/-- The reconciled record a row contributes to `matched_depletions_data`,
when it contributes one. -/
def matchedRecord (accounts : List EntityRecord) (row : TransactionRecord) :
    Option ReconciledRecord :=
  match rowOutcome accounts row with
  | RowOutcome.matchedRow r => some r
  | _ => none

/-- Whether a row hits the `continue` at line 78 (no id in the map). -/
def isUnmatchedRow (accounts : List EntityRecord) (row : TransactionRecord) : Bool :=
  match rowOutcome accounts row with
  | RowOutcome.unmatchedRow _ => true
  | _ => false

/-- Whether a row hits one of the invalid-cases `continue`s (lines 86, 90). -/
def isInvalidRow (accounts : List EntityRecord) (row : TransactionRecord) : Bool :=
  match rowOutcome accounts row with
  | RowOutcome.invalidRow => true
  | _ => false

/-! ### Legacy join (merge_account_ids.py, lines 27-49) -/

/-- Output row of the legacy join: `cases` is copied raw from the input
row, with no parsing or positivity check (merge_account_ids.py, line 47). -/
structure OldMatchedRecord where
  account_id : String
  order_date : String
  cases : Option ℚ
  sku : String
deriving DecidableEq, Repr

/-- Accumulators of the legacy join loop. -/
structure OldMergeResult where
  matched : List OldMatchedRecord
  skipped_count : Nat
deriving DecidableEq, Repr

/-- The legacy map keys on the RAW `std_account_name` — no lowercasing,
no trimming (merge_account_ids.py, line 28). -/
def old_account_id_map_pairs (accounts : List EntityRecord) : List (String × String) :=
  accounts.map (fun a => (a.std_account_name, a.id))

/-- The legacy join of merge_account_ids.py (lines 27-49): exact-string
lookup, no quantity validation. -/
def merge_account_ids_with_depletions (accounts : List EntityRecord)
    (depletions : List TransactionRecord) : OldMergeResult :=
  depletions.foldl (fun acc row =>
    match dictGet (old_account_id_map_pairs accounts) row.std_account_name_for_lookup with
    | none => { acc with skipped_count := acc.skipped_count + 1 }
    | some accountId =>
        { acc with matched :=
            acc.matched ++ [⟨accountId, row.order_date, row.cases, row.sku⟩] })
    ⟨[], 0⟩

/-! ### Precondition checks (add_account_ids.py, lines 26-51) -/

/-- Either the batch aborts on a missing required column (the early
`return`s at add_account_ids.py lines 27-34 and 48-51), or the row loop
runs to completion. -/
inductive MergeOutcome where
  | abortedMissingColumn (col : String)
  | completed (result : ReconcileResult)
deriving DecidableEq

/-- The column-presence checks of add_account_ids.py (lines 26-51),
performed before any row is processed: a missing `id` or
`std_account_name` column in the accounts table, or a missing
`std_account_name_for_lookup` column in the depletions table, aborts the
whole batch; otherwise the reconciliation loop runs on all rows. -/
def merge_with_column_checks (accountsCols depletionsCols : List String)
    (accounts : List EntityRecord) (depletions : List TransactionRecord) : MergeOutcome :=
  if "id" ∉ accountsCols then MergeOutcome.abortedMissingColumn "id"
  else if "std_account_name" ∉ accountsCols then
    MergeOutcome.abortedMissingColumn "std_account_name"
  else if "std_account_name_for_lookup" ∉ depletionsCols then
    MergeOutcome.abortedMissingColumn "std_account_name_for_lookup"
  else MergeOutcome.completed (merge_true_supabase_ids_with_depletions accounts depletions)

/-! ### Dates and the unpivot step (process_vip_export.py) -/

/-- A Gregorian calendar date, as held by Python's `datetime`. -/
structure Date where
  year : Nat
  month : Nat
  day : Nat
deriving DecidableEq, Repr

def isLeapYear (y : Nat) : Bool :=
  (y % 4 == 0 && y % 100 != 0) || (y % 400 == 0)

def daysInMonth (y m : Nat) : Nat :=
  if m = 2 then (if isLeapYear y then 29 else 28)
  else if m = 4 ∨ m = 6 ∨ m = 9 ∨ m = 11 then 30
  else 31

def nextDay (d : Date) : Date :=
  if d.day < daysInMonth d.year d.month then ⟨d.year, d.month, d.day + 1⟩
  else if d.month < 12 then ⟨d.year, d.month + 1, 1⟩
  else ⟨d.year + 1, 1, 1⟩

/-- `date + timedelta(days := n)`, one day at a time. -/
def addDays (d : Date) : Nat → Date
  | 0 => d
  | n + 1 => addDays (nextDay d) n

def padZeros (width : Nat) (n : Nat) : String :=
  String.mk (List.replicate (width - (toString n).length) '0') ++ toString n

/-- `strftime('%Y-%m-%d')`. -/
def formatDate (d : Date) : String :=
  padZeros 4 d.year ++ "-" ++ padZeros 2 d.month ++ "-" ++ padZeros 2 d.day

def parseDigits (l : List Char) : Option Nat :=
  if l.isEmpty then none
  else if l.all Char.isDigit then
    some (l.foldl (fun acc c => acc * 10 + (c.toNat - 48)) 0)
  else none

/-- Split a character list on the dash character. -/
def splitOnDash (l : List Char) : List (List Char) :=
  match l with
  | [] => [[]]
  | c :: rest =>
    let r := splitOnDash rest
    if c = '-' then [] :: r
    else
      match r with
      | [] => [[c]]
      | g :: gs => (c :: g) :: gs

/-- `datetime.strptime(s, '%Y-%m-%d')` (process_vip_export.py, line 56):
`none` models the `ValueError` strptime raises on a malformed date. -/
def parseDate (s : String) : Option Date :=
  match splitOnDash s.data with
  | [y, m, d] =>
    match parseDigits y, parseDigits m, parseDigits d with
    | some yy, some mm, some dd =>
      if 1 ≤ mm ∧ mm ≤ 12 ∧ 1 ≤ dd ∧ dd ≤ daysInMonth yy mm then some ⟨yy, mm, dd⟩
      else none
    | _, _, _ => none
  | _ => none

/-- One row of the VIP export sheet: the `Retail Accounts` cell plus the
row's cells indexed by column name (`none` models NaN/missing). -/
structure VipRow where
  retail_accounts : String
  cells : String → Option ℚ

/-- One row of `depletions_to_import.csv` as built at
process_vip_export.py lines 72-77. -/
structure DepletionRow where
  std_account_name_for_lookup : String
  cases : ℚ
  order_date : String
  sku : String
deriving DecidableEq, Repr

/-- The per-month slice (process_vip_export.py, lines 72-80): take each
row's cell in the month column, keep it when it is present and nonzero
(negative values are kept), and stamp the month's order date and the
default SKU. -/
def monthRows (rows : List VipRow) (order_date : String) (month_col : String) :
    List DepletionRow :=
  rows.filterMap (fun r =>
    match r.cells month_col with
    | none => none
    | some q =>
      if q = 0 then none
      else some ⟨r.retail_accounts, q, order_date, "DEFAULT_SKU"⟩)

/-- The depletions half of process_vip_export.py (lines 55-85): parse
the start date (strptime raises on failure, modelled as `none`), then
for the i-th month column present in the sheet emit its slice dated
`start_date + timedelta(days = 30 * i)`, and concatenate the slices. -/
def process_vip_export (dfColumns : List String) (rows : List VipRow)
    (start_date_str : String) (month_columns : List String) : Option (List DepletionRow) :=
  match parseDate start_date_str with
  | none => none
  | some start_date =>
    some ((month_columns.enum.filterMap (fun ic =>
      if ic.2 ∈ dfColumns then
        some (monthRows rows (formatDate (addDays start_date (30 * ic.1))) ic.2)
      else none)).flatten)

/-! ### Characterization lemmas for the dict lookup -/

theorem dictGet_eq_none_iff (pairs : List (String × String)) (key : String) :
    dictGet pairs key = none ↔ ∀ p ∈ pairs, p.1 ≠ key := by
  simp [dictGet, List.find?_eq_none]

theorem dictGet_eq_some_mem (pairs : List (String × String)) (key v : String)
    (h : dictGet pairs key = some v) : (key, v) ∈ pairs := by
  simp only [dictGet, Option.map_eq_some'] at h
  obtain ⟨p, hfind, hv⟩ := h
  have hkey : p.1 = key := by simpa using List.find?_some hfind
  have hmem : p ∈ pairs := List.mem_reverse.mp (List.mem_of_find?_eq_some hfind)
  have : p = (key, v) := by
    cases p
    simp only at hkey hv
    simp [hkey, hv]
  rwa [this] at hmem

/-- Last-write-wins: a `dict(zip(keys, values))` lookup returns the value
of the last pair carrying the key. -/
theorem dictGet_last (l₁ l₂ : List (String × String)) (key v : String)
    (h : ∀ p ∈ l₂, p.1 ≠ key) :
    dictGet (l₁ ++ (key, v) :: l₂) key = some v := by
  have hnone : l₂.reverse.find? (fun p => p.1 == key) = none := by
    rw [List.find?_eq_none]
    intro p hp
    simpa using h p (List.mem_reverse.mp hp)
  simp [dictGet, List.find?_append, hnone]

theorem mem_account_id_map_pairs (accounts : List EntityRecord) (k v : String) :
    (k, v) ∈ account_id_map_pairs accounts ↔
      ∃ a ∈ accounts, normalize a.std_account_name = k ∧ a.id = v := by
  simp only [account_id_map_pairs, List.mem_map]
  constructor
  · rintro ⟨a, ha, heq⟩
    exact ⟨a, ha, congrArg Prod.fst heq, congrArg Prod.snd heq⟩
  · rintro ⟨a, ha, hk, hv⟩
    exact ⟨a, ha, by rw [hk, hv]⟩

/-! ### Characterization of the fold over depletion rows -/

theorem foldl_processRow_matched (accounts : List EntityRecord) :
    ∀ (ds : List TransactionRecord) (acc : ReconcileResult),
      (ds.foldl (processRow accounts) acc).matched =
        acc.matched ++ ds.filterMap (matchedRecord accounts) := by
  intro ds
  induction ds with
  | nil => intro acc; simp
  | cons t ds ih =>
    intro acc
    simp only [List.foldl_cons, List.filterMap_cons, ih]
    unfold processRow matchedRecord
    cases h : rowOutcome accounts t <;> simp

theorem foldl_processRow_skipped (accounts : List EntityRecord) :
    ∀ (ds : List TransactionRecord) (acc : ReconcileResult),
      (ds.foldl (processRow accounts) acc).skipped_invalid_count =
        acc.skipped_invalid_count + ds.countP (isInvalidRow accounts) := by
  intro ds
  induction ds with
  | nil => intro acc; simp
  | cons t ds ih =>
    intro acc
    simp only [List.foldl_cons, List.countP_cons, ih]
    unfold processRow isInvalidRow
    cases h : rowOutcome accounts t <;> simp <;> try omega

theorem foldl_processRow_unmatched (accounts : List EntityRecord) :
    ∀ (ds : List TransactionRecord) (acc : ReconcileResult) (n : String),
      n ∈ (ds.foldl (processRow accounts) acc).unmatched_names ↔
        n ∈ acc.unmatched_names ∨
          ∃ t ∈ ds, rowOutcome accounts t = RowOutcome.unmatchedRow n := by
  intro ds
  induction ds with
  | nil => intro acc n; simp
  | cons t ds ih =>
    intro acc n
    simp only [List.foldl_cons, ih, List.mem_cons]
    unfold processRow
    cases h : rowOutcome accounts t with
    | matchedRow r =>
      simp only []
      constructor
      · rintro (hin | ⟨t', ht', hout⟩)
        · exact Or.inl hin
        · exact Or.inr ⟨t', Or.inr ht', hout⟩
      · rintro (hin | ⟨t', ht' | ht', hout⟩)
        · exact Or.inl hin
        · rw [ht', h] at hout; exact absurd hout (by simp)
        · exact Or.inr ⟨t', ht', hout⟩
    | unmatchedRow m =>
      simp only [Finset.mem_insert]
      constructor
      · rintro ((rfl | hin) | ⟨t', ht', hout⟩)
        · exact Or.inr ⟨t, Or.inl rfl, by rw [h]⟩
        · exact Or.inl hin
        · exact Or.inr ⟨t', Or.inr ht', hout⟩
      · rintro (hin | ⟨t', ht' | ht', hout⟩)
        · exact Or.inl (Or.inr hin)
        · rw [ht', h] at hout
          cases hout
          exact Or.inl (Or.inl rfl)
        · exact Or.inr ⟨t', ht', hout⟩
    | invalidRow =>
      simp only []
      constructor
      · rintro (hin | ⟨t', ht', hout⟩)
        · exact Or.inl hin
        · exact Or.inr ⟨t', Or.inr ht', hout⟩
      · rintro (hin | ⟨t', ht' | ht', hout⟩)
        · exact Or.inl hin
        · rw [ht', h] at hout; exact absurd hout (by simp)
        · exact Or.inr ⟨t', ht', hout⟩

theorem merge_matched_eq (accounts : List EntityRecord) (ds : List TransactionRecord) :
    (merge_true_supabase_ids_with_depletions accounts ds).matched =
      ds.filterMap (matchedRecord accounts) := by
  simpa using foldl_processRow_matched accounts ds ⟨[], ∅, 0⟩

theorem merge_skipped_eq (accounts : List EntityRecord) (ds : List TransactionRecord) :
    (merge_true_supabase_ids_with_depletions accounts ds).skipped_invalid_count =
      ds.countP (isInvalidRow accounts) := by
  simpa using foldl_processRow_skipped accounts ds ⟨[], ∅, 0⟩

theorem merge_unmatched_mem (accounts : List EntityRecord) (ds : List TransactionRecord)
    (n : String) :
    n ∈ (merge_true_supabase_ids_with_depletions accounts ds).unmatched_names ↔
      ∃ t ∈ ds, rowOutcome accounts t = RowOutcome.unmatchedRow n := by
  have := foldl_processRow_unmatched accounts ds ⟨[], ∅, 0⟩ n
  simpa [merge_true_supabase_ids_with_depletions] using this

/-- Each row takes exactly one of the three outcomes, so the three
tallies partition the input rows. -/
theorem outcome_partition (accounts : List EntityRecord) (ds : List TransactionRecord) :
    (ds.filterMap (matchedRecord accounts)).length
      + ds.countP (isUnmatchedRow accounts)
      + ds.countP (isInvalidRow accounts) = ds.length := by
  induction ds with
  | nil => simp
  | cons t ds ih =>
    simp only [List.filterMap_cons, List.countP_cons, List.length_cons]
    cases h : rowOutcome accounts t <;>
      simp [matchedRecord, isUnmatchedRow, isInvalidRow, h] <;> omega

/-- A row is unmatched exactly when its normalized name has no entry in
the account id map. -/
theorem isUnmatchedRow_iff_isNone (accounts : List EntityRecord) (t : TransactionRecord) :
    isUnmatchedRow accounts t =
      (dictGet (account_id_map_pairs accounts)
        (normalize t.std_account_name_for_lookup)).isNone := by
  unfold isUnmatchedRow rowOutcome
  cases h : dictGet (account_id_map_pairs accounts) (normalize t.std_account_name_for_lookup) with
  | none => simp
  | some i =>
    cases t.cases with
    | none => simp
    | some q =>
      by_cases hq : q ≤ 0 <;> simp [hq]

/-! ### Per-row outcome characterizations -/

theorem account_map_none_iff (accounts : List EntityRecord) (key : String) :
    dictGet (account_id_map_pairs accounts) key = none ↔
      ∀ a ∈ accounts, normalize a.std_account_name ≠ key := by
  rw [dictGet_eq_none_iff]
  constructor
  · intro h a ha
    exact h (normalize a.std_account_name, a.id) (List.mem_map_of_mem _ ha)
  · rintro h p hp
    obtain ⟨a, ha, rfl⟩ := List.mem_map.mp hp
    exact h a ha

theorem account_map_some (accounts : List EntityRecord) (key v : String)
    (h : dictGet (account_id_map_pairs accounts) key = some v) :
    ∃ a ∈ accounts, normalize a.std_account_name = key ∧ a.id = v :=
  (mem_account_id_map_pairs accounts key v).mp (dictGet_eq_some_mem _ _ _ h)

theorem rowOutcome_matched_iff (accounts : List EntityRecord) (t : TransactionRecord)
    (r : ReconciledRecord) :
    rowOutcome accounts t = RowOutcome.matchedRow r ↔
      (dictGet (account_id_map_pairs accounts) (normalize t.std_account_name_for_lookup)
          = some r.account_id ∧
        t.cases = some r.cases ∧ 0 < r.cases ∧
        r.order_date = t.order_date ∧ r.sku = t.sku) := by
  obtain ⟨rid, rdate, rq, rsku⟩ := r
  unfold rowOutcome
  cases hd : dictGet (account_id_map_pairs accounts)
      (normalize t.std_account_name_for_lookup) with
  | none => simp
  | some i =>
    cases hc : t.cases with
    | none => simp
    | some q =>
      by_cases hq : q ≤ 0
      · simp only [hq, if_true, Option.some_inj]
        constructor
        · intro h; cases h
        · rintro ⟨-, hqq, hpos, -, -⟩
          rw [← hqq] at hpos
          exact absurd hpos (not_lt.mpr hq)
      · simp only [hq, if_false, RowOutcome.matchedRow.injEq, ReconciledRecord.mk.injEq,
          Option.some_inj]
        constructor
        · rintro ⟨rfl, rfl, rfl, rfl⟩
          exact ⟨rfl, rfl, not_le.mp hq, rfl, rfl⟩
        · rintro ⟨rfl, rfl, -, rfl, rfl⟩
          exact ⟨rfl, rfl, rfl, rfl⟩

theorem rowOutcome_unmatched_iff (accounts : List EntityRecord) (t : TransactionRecord)
    (n : String) :
    rowOutcome accounts t = RowOutcome.unmatchedRow n ↔
      (dictGet (account_id_map_pairs accounts) (normalize t.std_account_name_for_lookup)
          = none ∧
        n = t.std_account_name_for_lookup) := by
  unfold rowOutcome
  cases hd : dictGet (account_id_map_pairs accounts)
      (normalize t.std_account_name_for_lookup) with
  | none => simp [eq_comm]
  | some i =>
    cases hc : t.cases with
    | none => simp
    | some q => by_cases hq : q ≤ 0 <;> simp [hq]

theorem rowOutcome_invalid_iff (accounts : List EntityRecord) (t : TransactionRecord) :
    rowOutcome accounts t = RowOutcome.invalidRow ↔
      ((∃ i, dictGet (account_id_map_pairs accounts)
          (normalize t.std_account_name_for_lookup) = some i) ∧
        (t.cases = none ∨ ∃ q, t.cases = some q ∧ q ≤ 0)) := by
  unfold rowOutcome
  cases hd : dictGet (account_id_map_pairs accounts)
      (normalize t.std_account_name_for_lookup) with
  | none => simp
  | some i =>
    cases hc : t.cases with
    | none => simp
    | some q => by_cases hq : q ≤ 0 <;> simp [hq]

theorem matchedRecord_eq_some_iff (accounts : List EntityRecord) (t : TransactionRecord)
    (r : ReconciledRecord) :
    matchedRecord accounts t = some r ↔ rowOutcome accounts t = RowOutcome.matchedRow r := by
  unfold matchedRecord
  cases h : rowOutcome accounts t <;> simp

theorem isUnmatchedRow_true_iff (accounts : List EntityRecord) (t : TransactionRecord) :
    isUnmatchedRow accounts t = true ↔
      rowOutcome accounts t = RowOutcome.unmatchedRow t.std_account_name_for_lookup := by
  unfold isUnmatchedRow
  cases h : rowOutcome accounts t with
  | matchedRow r => simp
  | unmatchedRow m =>
    simp only [true_iff]
    have := (rowOutcome_unmatched_iff accounts t m).mp h
    rw [this.2]
  | invalidRow => simp

/-- Every row of a month slice carries that slice's order date. -/
theorem monthRows_order_date (rows : List VipRow) (date month_col : String) :
    ∀ d ∈ monthRows rows date month_col, d.order_date = date := by
  intro d hd
  unfold monthRows at hd
  obtain ⟨r, -, hr⟩ := List.mem_filterMap.mp hd
  cases hc : r.cells month_col with
  | none => simp [hc] at hr
  | some q =>
    simp only [hc] at hr
    by_cases hq : q = 0
    · simp [hq] at hr
    · simp only [if_neg hq, Option.some_inj] at hr
      rw [← hr]

/-! ### Claim theorems -/

/-- C1 counterexample: two entities ("X" with id "A1", "x" with id "A2")
normalize to the same key "x"; the transaction named "x" matches both,
yet the emitted record carries "A2", not the first entity's "A1" — so the
claim, universally quantified over entity/transaction pairs with equal
normalized names, fails as stated. -/
theorem C1_counterexample :
    normalize "X" = normalize "x" ∧
    rowOutcome [⟨"X", "A1"⟩, ⟨"x", "A2"⟩] ⟨"x", "2024-04-01", some 1, "S"⟩ =
      RowOutcome.matchedRow ⟨"A2", "2024-04-01", 1, "S"⟩ ∧
    ("A2" : String) ≠ "A1" := by
  decide

/-- C1 (amended): when every entity whose normalized display name equals
the transaction's normalized name reference carries one and the same
identifier — in particular when the matching entity is unique — the
reconciled record emitted for that transaction carries that identifier;
and every record in the matched output carries the identifier of some
entity whose normalized display name equals the normalized name
reference of the transaction it was emitted for. -/
theorem C1_reconciled_id_matches_entity (accounts : List EntityRecord)
    (depletions : List TransactionRecord) :
    (∀ a ∈ accounts, ∀ t : TransactionRecord, ∀ r : ReconciledRecord,
      normalize a.std_account_name = normalize t.std_account_name_for_lookup →
      (∀ a2 ∈ accounts,
        normalize a2.std_account_name = normalize t.std_account_name_for_lookup →
        a2.id = a.id) →
      rowOutcome accounts t = RowOutcome.matchedRow r →
      r.account_id = a.id) ∧
    (∀ r ∈ (merge_true_supabase_ids_with_depletions accounts depletions).matched,
      ∃ t ∈ depletions, ∃ a ∈ accounts,
        rowOutcome accounts t = RowOutcome.matchedRow r ∧
        r.account_id = a.id ∧
        normalize a.std_account_name = normalize t.std_account_name_for_lookup) := by
  constructor
  · intro a ha t r hnorm huniq hrow
    have hd := ((rowOutcome_matched_iff accounts t r).mp hrow).1
    obtain ⟨a2, ha2, hn2, hid2⟩ := account_map_some _ _ _ hd
    rw [← hid2]
    exact huniq a2 ha2 hn2
  · intro r hr
    rw [merge_matched_eq] at hr
    obtain ⟨t, ht, hrec⟩ := List.mem_filterMap.mp hr
    have hrow := (matchedRecord_eq_some_iff accounts t r).mp hrec
    have hd := ((rowOutcome_matched_iff accounts t r).mp hrow).1
    obtain ⟨a, ha, hn, hid⟩ := account_map_some _ _ _ hd
    exact ⟨t, ht, a, ha, hrow, hid.symm, hn⟩

/-- Witness for C1: a unique matching entity ("Joes Bar", id "A1") and a
transaction whose trimmed lowercase name matches it; the emitted record
carries "A1". -/
theorem C1_reconciled_id_matches_entity_witness :
    (⟨"A1", "2024-04-01", 3, "X"⟩ : ReconciledRecord).account_id =
      (⟨"Joes Bar", "A1"⟩ : EntityRecord).id :=
  (C1_reconciled_id_matches_entity [⟨"Joes Bar", "A1"⟩]
      [⟨"joes bar ", "2024-04-01", some 3, "X"⟩]).1
    ⟨"Joes Bar", "A1"⟩ (by decide) ⟨"joes bar ", "2024-04-01", some 3, "X"⟩
    ⟨"A1", "2024-04-01", 3, "X"⟩ (by decide) (by decide) (by decide)

/-- C2: a transaction whose normalized name reference matches no entity's
normalized display name contributes nothing to the matched output
(`matchedRecord` is `none` for it), and its original, non-normalized
name reference lands in the `unmatched_names` set. -/
theorem C2_unmatched_transaction (accounts : List EntityRecord)
    (depletions : List TransactionRecord) (t : TransactionRecord)
    (ht : t ∈ depletions)
    (hnom : ∀ a ∈ accounts,
      normalize a.std_account_name ≠ normalize t.std_account_name_for_lookup) :
    matchedRecord accounts t = none ∧
    t.std_account_name_for_lookup ∈
      (merge_true_supabase_ids_with_depletions accounts depletions).unmatched_names := by
  have hd : dictGet (account_id_map_pairs accounts)
      (normalize t.std_account_name_for_lookup) = none :=
    (account_map_none_iff accounts _).mpr hnom
  have hrow : rowOutcome accounts t =
      RowOutcome.unmatchedRow t.std_account_name_for_lookup :=
    (rowOutcome_unmatched_iff accounts t _).mpr ⟨hd, rfl⟩
  constructor
  · unfold matchedRecord
    rw [hrow]
  · exact (merge_unmatched_mem accounts depletions _).mpr ⟨t, ht, hrow⟩

/-- Witness for C2: "Unknown Store" matches no entity; it is dropped and
recorded in `unmatched_names`. -/
theorem C2_unmatched_transaction_witness :
    matchedRecord [⟨"Joes Bar", "A1"⟩] ⟨"Unknown Store", "2024-04-01", some 5, "X"⟩ = none ∧
    "Unknown Store" ∈
      (merge_true_supabase_ids_with_depletions [⟨"Joes Bar", "A1"⟩]
        [⟨"Unknown Store", "2024-04-01", some 5, "X"⟩]).unmatched_names :=
  C2_unmatched_transaction [⟨"Joes Bar", "A1"⟩]
    [⟨"Unknown Store", "2024-04-01", some 5, "X"⟩]
    ⟨"Unknown Store", "2024-04-01", some 5, "X"⟩ (by decide) (by decide)

/-- C3: a name-matched transaction whose quantity is missing/unparseable
(`none`) or parses to a non-positive number contributes nothing to the
matched output and bumps `skipped_invalid_count` by exactly one; and
every record in the matched output has a strictly positive parsed
quantity. -/
theorem C3_invalid_quantity (accounts : List EntityRecord) :
    (∀ t : TransactionRecord,
      (∃ a ∈ accounts,
        normalize a.std_account_name = normalize t.std_account_name_for_lookup) →
      (t.cases = none ∨ ∃ q, t.cases = some q ∧ q ≤ 0) →
      matchedRecord accounts t = none ∧
      ∀ acc : ReconcileResult,
        (processRow accounts acc t).skipped_invalid_count =
          acc.skipped_invalid_count + 1 ∧
        (processRow accounts acc t).matched = acc.matched) ∧
    (∀ depletions : List TransactionRecord,
      ∀ r ∈ (merge_true_supabase_ids_with_depletions accounts depletions).matched,
        0 < r.cases) := by
  constructor
  · intro t hmatch hbad
    have hd : ∃ i, dictGet (account_id_map_pairs accounts)
        (normalize t.std_account_name_for_lookup) = some i := by
      cases hcase : dictGet (account_id_map_pairs accounts)
          (normalize t.std_account_name_for_lookup) with
      | none =>
        obtain ⟨a, ha, hn⟩ := hmatch
        exact absurd hn ((account_map_none_iff accounts _).mp hcase a ha)
      | some i => exact ⟨i, rfl⟩
    have hrow : rowOutcome accounts t = RowOutcome.invalidRow :=
      (rowOutcome_invalid_iff accounts t).mpr ⟨hd, hbad⟩
    refine ⟨?_, ?_⟩
    · unfold matchedRecord
      rw [hrow]
    · intro acc
      unfold processRow
      rw [hrow]
      exact ⟨rfl, rfl⟩
  · intro depletions r hr
    rw [merge_matched_eq] at hr
    obtain ⟨t, -, hrec⟩ := List.mem_filterMap.mp hr
    have hrow := (matchedRecord_eq_some_iff accounts t r).mp hrec
    exact ((rowOutcome_matched_iff accounts t r).mp hrow).2.2.1

/-- Witness for C3: a zero-quantity transaction matching entity "A1" is
dropped and counted. -/
theorem C3_invalid_quantity_witness :
    matchedRecord [⟨"Joes Bar", "A1"⟩] ⟨"Joes Bar", "2024-04-01", some 0, "X"⟩ = none ∧
    (processRow [⟨"Joes Bar", "A1"⟩] ⟨[], ∅, 0⟩
      ⟨"Joes Bar", "2024-04-01", some 0, "X"⟩).skipped_invalid_count = 0 + 1 := by
  have h := (C3_invalid_quantity [⟨"Joes Bar", "A1"⟩]).1
    ⟨"Joes Bar", "2024-04-01", some 0, "X"⟩
    ⟨⟨"Joes Bar", "A1"⟩, by decide, by decide⟩
    (Or.inr ⟨0, rfl, le_refl 0⟩)
  exact ⟨h.1, (h.2 ⟨[], ∅, 0⟩).1⟩

/-- C4: when an entity is the last one in input order whose normalized
name equals its key (every later entity normalizes elsewhere), the
lookup map holds its identifier — regardless of earlier entities with
the same key — and every transaction matching that key that produces a
reconciled record resolves to that identifier. -/
theorem C4_last_write_wins (accounts l1 l2 : List EntityRecord) (a : EntityRecord)
    (hsplit : accounts = l1 ++ a :: l2)
    (hlast : ∀ b ∈ l2,
      normalize b.std_account_name ≠ normalize a.std_account_name) :
    dictGet (account_id_map_pairs accounts) (normalize a.std_account_name) = some a.id ∧
    (∀ t : TransactionRecord, ∀ r : ReconciledRecord,
      normalize t.std_account_name_for_lookup = normalize a.std_account_name →
      rowOutcome accounts t = RowOutcome.matchedRow r →
      r.account_id = a.id) := by
  have hmap : dictGet (account_id_map_pairs accounts)
      (normalize a.std_account_name) = some a.id := by
    rw [hsplit]
    unfold account_id_map_pairs
    rw [List.map_append, List.map_cons]
    apply dictGet_last
    intro p hp
    obtain ⟨b, hb, rfl⟩ := List.mem_map.mp hp
    exact hlast b hb
  refine ⟨hmap, ?_⟩
  intro t r hkey hrow
  have hd := ((rowOutcome_matched_iff accounts t r).mp hrow).1
  rw [hkey, hmap] at hd
  exact (Option.some_inj.mp hd).symm

/-- Witness for C4: entities "X" (id "A1") and "x" (id "A2") share the
normalized key "x"; the map resolves it to "A2". -/
theorem C4_last_write_wins_witness :
    dictGet (account_id_map_pairs [⟨"X", "A1"⟩, ⟨"x", "A2"⟩])
      (normalize (⟨"x", "A2"⟩ : EntityRecord).std_account_name) =
      some (⟨"x", "A2"⟩ : EntityRecord).id :=
  (C4_last_write_wins [⟨"X", "A1"⟩, ⟨"x", "A2"⟩] [⟨"X", "A1"⟩] []
    ⟨"x", "A2"⟩ rfl (by decide)).1

/-- C5: with the three checked columns present the batch never aborts —
it completes with every row routed to one of the three outcomes (an
unmatched row's original name lands in `unmatched_names`, and
`skipped_invalid_count` tallies exactly the invalid rows) — while a
missing required column aborts the whole batch before any row is
processed. -/
theorem C5_error_policy (accountsCols depletionsCols : List String)
    (accounts : List EntityRecord) (depletions : List TransactionRecord) :
    ("id" ∈ accountsCols → "std_account_name" ∈ accountsCols →
      "std_account_name_for_lookup" ∈ depletionsCols →
      merge_with_column_checks accountsCols depletionsCols accounts depletions =
        MergeOutcome.completed
          (merge_true_supabase_ids_with_depletions accounts depletions)) ∧
    (("id" ∉ accountsCols ∨ "std_account_name" ∉ accountsCols ∨
        "std_account_name_for_lookup" ∉ depletionsCols) →
      ∃ c, merge_with_column_checks accountsCols depletionsCols accounts depletions =
        MergeOutcome.abortedMissingColumn c) ∧
    (∀ t ∈ depletions, isUnmatchedRow accounts t = true →
      t.std_account_name_for_lookup ∈
        (merge_true_supabase_ids_with_depletions accounts depletions).unmatched_names) ∧
    (merge_true_supabase_ids_with_depletions accounts depletions).skipped_invalid_count =
      depletions.countP (isInvalidRow accounts) := by
  refine ⟨?_, ?_, ?_, merge_skipped_eq accounts depletions⟩
  · intro h1 h2 h3
    unfold merge_with_column_checks
    rw [if_neg (by simpa using h1), if_neg (by simpa using h2),
      if_neg (by simpa using h3)]
  · intro h
    unfold merge_with_column_checks
    rcases h with h | h | h
    · exact ⟨"id", by rw [if_pos h]⟩
    · by_cases h1 : "id" ∈ accountsCols
      · exact ⟨"std_account_name", by rw [if_neg (by simpa using h1), if_pos h]⟩
      · exact ⟨"id", by rw [if_pos h1]⟩
    · by_cases h1 : "id" ∈ accountsCols
      · by_cases h2 : "std_account_name" ∈ accountsCols
        · exact ⟨"std_account_name_for_lookup",
            by rw [if_neg (by simpa using h1), if_neg (by simpa using h2), if_pos h]⟩
        · exact ⟨"std_account_name", by rw [if_neg (by simpa using h1), if_pos h2]⟩
      · exact ⟨"id", by rw [if_pos h1]⟩
  · intro t ht hun
    exact (merge_unmatched_mem accounts depletions _).mpr
      ⟨t, ht, (isUnmatchedRow_true_iff accounts t).mp hun⟩

/-- Witness for C5: with all columns present the batch completes; with an
empty column list it aborts. -/
theorem C5_error_policy_witness :
    merge_with_column_checks ["id", "std_account_name"] ["std_account_name_for_lookup"]
      [] [] = MergeOutcome.completed (merge_true_supabase_ids_with_depletions [] []) ∧
    ∃ c, merge_with_column_checks [] [] [] [] = MergeOutcome.abortedMissingColumn c :=
  ⟨(C5_error_policy ["id", "std_account_name"] ["std_account_name_for_lookup"] [] []).1
      (by decide) (by decide) (by decide),
    (C5_error_policy [] [] [] []).2.1 (Or.inl (by decide))⟩

/-- C6: a reconciled record emitted for a transaction keeps the
transaction's `order_date` and `sku` unchanged; only the name reference
is replaced by the identifier resolved from the map and the quantity by
its parsed value. -/
theorem C6_frame_order_date_sku (accounts : List EntityRecord)
    (t : TransactionRecord) (r : ReconciledRecord)
    (h : rowOutcome accounts t = RowOutcome.matchedRow r) :
    r.order_date = t.order_date ∧ r.sku = t.sku ∧ t.cases = some r.cases ∧
    dictGet (account_id_map_pairs accounts) (normalize t.std_account_name_for_lookup) =
      some r.account_id := by
  have hh := (rowOutcome_matched_iff accounts t r).mp h
  exact ⟨hh.2.2.2.1, hh.2.2.2.2, hh.2.1, hh.1⟩

/-- Witness for C6 at a concrete matched transaction. -/
theorem C6_frame_order_date_sku_witness :
    (⟨"A1", "2024-04-01", 3, "X"⟩ : ReconciledRecord).order_date =
      (⟨"joes bar ", "2024-04-01", some 3, "X"⟩ : TransactionRecord).order_date ∧
    (⟨"A1", "2024-04-01", 3, "X"⟩ : ReconciledRecord).sku =
      (⟨"joes bar ", "2024-04-01", some 3, "X"⟩ : TransactionRecord).sku ∧
    (⟨"joes bar ", "2024-04-01", some 3, "X"⟩ : TransactionRecord).cases =
      some (⟨"A1", "2024-04-01", 3, "X"⟩ : ReconciledRecord).cases ∧
    dictGet (account_id_map_pairs [⟨"Joes Bar", "A1"⟩])
      (normalize (⟨"joes bar ", "2024-04-01", some 3,
        "X"⟩ : TransactionRecord).std_account_name_for_lookup) =
      some (⟨"A1", "2024-04-01", 3, "X"⟩ : ReconciledRecord).account_id :=
  C6_frame_order_date_sku [⟨"Joes Bar", "A1"⟩]
    ⟨"joes bar ", "2024-04-01", some 3, "X"⟩ ⟨"A1", "2024-04-01", 3, "X"⟩ (by decide)

/-- C7: the three outcomes partition the input: the matched output's
length, plus the number of rows whose normalized name has no mapping
entry, plus `skipped_invalid_count`, equals the number of transaction
rows. -/
theorem C7_outcome_conservation (accounts : List EntityRecord)
    (depletions : List TransactionRecord) :
    (merge_true_supabase_ids_with_depletions accounts depletions).matched.length
      + depletions.countP (fun t =>
          (dictGet (account_id_map_pairs accounts)
            (normalize t.std_account_name_for_lookup)).isNone)
      + (merge_true_supabase_ids_with_depletions accounts depletions).skipped_invalid_count
      = depletions.length := by
  rw [merge_matched_eq, merge_skipped_eq]
  have hcount : depletions.countP (fun t =>
      (dictGet (account_id_map_pairs accounts)
        (normalize t.std_account_name_for_lookup)).isNone) =
      depletions.countP (isUnmatchedRow accounts) := by
    apply List.countP_congr
    intro t ht
    rw [isUnmatchedRow_iff_isNone accounts t]
  rw [hcount]
  exact outcome_partition accounts depletions

/-- C8: the reconciliation is a pure function of its two inputs — two
runs on equal inputs produce matched outputs equal element for element
(same order, same values); in fact the matched output is exactly the
input-ordered `filterMap` of the per-row outcome. -/
theorem C8_deterministic (accounts1 accounts2 : List EntityRecord)
    (depletions1 depletions2 : List TransactionRecord)
    (ha : accounts1 = accounts2) (hd : depletions1 = depletions2) :
    (merge_true_supabase_ids_with_depletions accounts1 depletions1).matched =
      (merge_true_supabase_ids_with_depletions accounts2 depletions2).matched ∧
    (merge_true_supabase_ids_with_depletions accounts1 depletions1).matched =
      depletions1.filterMap (matchedRecord accounts1) := by
  subst ha
  subst hd
  exact ⟨rfl, merge_matched_eq accounts1 depletions1⟩

/-- Witness for C8 at a concrete input pair. -/
theorem C8_deterministic_witness :
    (merge_true_supabase_ids_with_depletions [⟨"Joes Bar", "A1"⟩]
        [⟨"joes bar ", "2024-04-01", some 3, "X"⟩]).matched =
      (merge_true_supabase_ids_with_depletions [⟨"Joes Bar", "A1"⟩]
        [⟨"joes bar ", "2024-04-01", some 3, "X"⟩]).matched :=
  (C8_deterministic [⟨"Joes Bar", "A1"⟩] [⟨"Joes Bar", "A1"⟩]
    [⟨"joes bar ", "2024-04-01", some 3, "X"⟩]
    [⟨"joes bar ", "2024-04-01", some 3, "X"⟩] rfl rfl).1

set_option maxRecDepth 10000 in
/-- C9: every row the unpivot emits is dated
`start_date + timedelta(days = 30 * i)` for the index `i` of its month
column (formatted `YYYY-MM-DD`); in particular with start 2024-04-01 the
third month column (`i = 2`) is dated 2024-05-31, not the first of a
calendar month. -/
theorem C9_month_column_dates (dfColumns : List String) (rows : List VipRow)
    (start_date_str : String) (month_columns : List String)
    (start_date : Date) (out : List DepletionRow)
    (hparse : parseDate start_date_str = some start_date)
    (hout : process_vip_export dfColumns rows start_date_str month_columns = some out) :
    (∀ d ∈ out, ∃ i col, month_columns[i]? = some col ∧ col ∈ dfColumns ∧
      d.order_date = formatDate (addDays start_date (30 * i))) ∧
    (formatDate (addDays ⟨2024, 4, 1⟩ (30 * 2)) = "2024-05-31" ∧
      ("2024-05-31" : String) ≠ "2024-06-01") := by
  constructor
  · intro d hd
    unfold process_vip_export at hout
    rw [hparse] at hout
    have hout2 : out = (month_columns.enum.filterMap (fun ic =>
        if ic.2 ∈ dfColumns then
          some (monthRows rows (formatDate (addDays start_date (30 * ic.1))) ic.2)
        else none)).flatten := (Option.some_inj.mp hout).symm
    rw [hout2] at hd
    obtain ⟨sub, hsub, hdsub⟩ := List.mem_flatten.mp hd
    obtain ⟨ic, hic, hic2⟩ := List.mem_filterMap.mp hsub
    obtain ⟨i, col⟩ := ic
    by_cases hcol : col ∈ dfColumns
    · rw [if_pos hcol] at hic2
      have hsubeq : sub =
          monthRows rows (formatDate (addDays start_date (30 * i))) col :=
        (Option.some_inj.mp hic2).symm
      refine ⟨i, col, List.mk_mem_enum_iff_getElem?.mp hic, hcol, ?_⟩
      rw [hsubeq] at hdsub
      exact monthRows_order_date rows _ _ d hdsub
    · rw [if_neg hcol] at hic2
      cases hic2
  · constructor
    · decide
    · decide

set_option maxRecDepth 10000 in
/-- Witness for C9: a three-month-column sheet with one account whose
only nonzero cell sits in the third column gets the drifted date
2024-05-31. -/
theorem C9_month_column_dates_witness :
    ∃ i col, (["9L", "9L.1", "9L.2"] : List String)[i]? = some col ∧
      col ∈ ["9L", "9L.2"] ∧
      (⟨"A", 5, "2024-05-31", "DEFAULT_SKU"⟩ : DepletionRow).order_date =
        formatDate (addDays ⟨2024, 4, 1⟩ (30 * i)) :=
  (C9_month_column_dates ["9L", "9L.2"]
      [⟨"A", fun c => if c = "9L.2" then some 5 else none⟩]
      "2024-04-01" ["9L", "9L.1", "9L.2"] ⟨2024, 4, 1⟩
      [⟨"A", 5, "2024-05-31", "DEFAULT_SKU"⟩] (by decide) (by rfl)).1
    ⟨"A", 5, "2024-05-31", "DEFAULT_SKU"⟩ (by simp)

/-- C10: the two joins are observably different: a name differing only
in case is matched by the normalized join but skipped by the legacy
exact-string join, and a zero-quantity row is emitted by the legacy join
but dropped (and counted) by the normalized one. -/
theorem C10_joins_not_equivalent :
    ((merge_account_ids_with_depletions [⟨"Joe", "A1"⟩]
        [⟨"joe", "2024-01-01", some 1, "S"⟩]).matched.length = 0 ∧
      (merge_true_supabase_ids_with_depletions [⟨"Joe", "A1"⟩]
        [⟨"joe", "2024-01-01", some 1, "S"⟩]).matched.length = 1) ∧
    ((merge_account_ids_with_depletions [⟨"Joe", "A1"⟩]
        [⟨"Joe", "2024-01-01", some 0, "S"⟩]).matched =
        [⟨"A1", "2024-01-01", some 0, "S"⟩] ∧
      (merge_true_supabase_ids_with_depletions [⟨"Joe", "A1"⟩]
        [⟨"Joe", "2024-01-01", some 0, "S"⟩]).matched = [] ∧
      (merge_true_supabase_ids_with_depletions [⟨"Joe", "A1"⟩]
        [⟨"Joe", "2024-01-01", some 0, "S"⟩]).skipped_invalid_count = 1) := by
  decide

end SakeOno
